import Mathlib

/-!
Verification of the ensembldb3 sequence-assembly and syntenic-alignment core.

Part A embeds `src/src/ensembldb3/sequence.py` (`_assemble_seq`,
`get_lower_coord_conversion`, `_get_sequence_from_direct_assembly`,
`_get_sequence_from_lower_assembly`, `get_sequence`).

Part B embeds `src/ensembldb/related_region.py` (`SyntenicRegion._make_ref_map`,
`SyntenicRegion._make_map_from_ref`, `SyntenicRegions.get_alignment`).

Collaborators that are not shipped under `src/` (the `Coordinate` value type and
`get_coord_conversion` from `assembly.py`, the `CoordSystem` registry, the
cogent3 cigar codec/slicer and `Aligned`/`Alignment` construction, and
`genome.get_region` sequence resolution) are modelled from the spec; each such
definition is marked `Modelled from the spec:` in its doc comment.

Python reference semantics matter for `get_sequence` (the working coordinate is
mutated in place), so coordinate objects live in an explicit store
(`Store := List Coordinate`); references are indices, allocation appends.
-/

/-- Modelled from the spec: the `Coordinate` value type of `assembly.py` (not
under `src/`), spec sections 3 and 4.1: coordinate-system name, region name,
half-open zero-based `start`/`end`, strand; `seq_region_id` is the DB key the
fragment fetch uses.  The source field `end` is spelled `stop` (Lean keyword).
The `genome`/db handle carried by the Python object is the `Env` parameter of
the functions below instead. -/
structure Coordinate where
  coord_type : String := "chromosome"
  coord_name : String := ""
  start : Int := 0
  stop : Int := 0
  strand : Int := 1
  seq_region_id : Int := 0
deriving DecidableEq, Repr

instance : Inhabited Coordinate := ⟨{}⟩

/-- Coordinate length, spec 4.1: `length() = end - start` (`len(t_loc)` in the
source). -/
def coordLen (c : Coordinate) : Int := c.stop - c.start

/-- Modelled from the spec: `ensembl_start` of `assembly.py` — the external
1-based inclusive convention is converted at the boundary (spec section 3), so
the 1-based start of a zero-based half-open coordinate is `start + 1`. -/
def Coordinate.ensembl_start (c : Coordinate) : Int := c.start + 1

/-- Modelled from the spec: `shifted` (spec 4.1) translates both bounds,
preserving length and strand. -/
def shifted (c : Coordinate) (offset : Int) : Coordinate :=
  { c with start := c.start + offset, stop := c.stop + offset }

/-- Failure modes of the embedded code.  `noItem` is the typed `NoItemError`
(the spec's `NoMapping`); `inconsistentAssembly` is the in-loop
`assert diff >= 0` of `_assemble_seq`; `endBeforeFragEnd` is the post-loop
`assert diff >= 0`; `mismatchedCounts` the leading length assert;
`unboundFragEnd` the Python `UnboundLocalError` raised by `end - frag_end`
when the fragment list is empty; `qLocStrandNot1` the
`assert q_loc.strand == 1` of `_get_sequence_from_direct_assembly`;
`keyError` a failed coordinate-system registry lookup. -/
inductive Err where
  | mismatchedCounts
  | inconsistentAssembly
  | endBeforeFragEnd
  | unboundFragEnd
  | qLocStrandNot1
  | noItem
  | keyError
deriving DecidableEq, Repr

/-- DNA complement of one base; characters outside ACGT (filler `N`, gap `-`)
are their own complement, as in cogent3. -/
def complementBase (c : Char) : Char :=
  if c = 'A' then 'T'
  else if c = 'T' then 'A'
  else if c = 'C' then 'G'
  else if c = 'G' then 'C'
  else c

/-- Reverse complement of a sequence string (`seq.rc()` in the source). -/
def rcStr (s : String) : String :=
  String.mk ((s.toList.map complementBase).reverse)

/-- Python `"N" * diff`: `diff` filler characters (empty for negative `diff`,
though the source asserts non-negativity first). -/
def nFill (diff : Int) : String :=
  String.mk (List.replicate diff.toNat 'N')

/-- Loop body of `_assemble_seq` over the zipped (position, fragment) list:
tracks `prev_end`, emits `gap` filler then the fragment, and reports the value
the Python loop variable `frag_end` has after the loop (`none` when the loop
never ran, i.e. the name stays unbound). -/
def assembleFrags : List ((Int × Int) × String) → Int → Except Err (String × Option Int)
  | [], _prevEnd => .ok ("", none)
  | ((fragStart, fragEnd), frag) :: rest, prevEnd =>
    if fragStart - prevEnd < 0 then .error .inconsistentAssembly
    else
      match assembleFrags rest fragEnd with
      | .error e => .error e
      | .ok (tail, last) =>
        .ok (nFill (fragStart - prevEnd) ++ frag ++ tail, some (last.getD fragEnd))

/-- Embedding of `_assemble_seq(frags, start, end, frag_positions)`
(sequence.py lines 24-41): missing sequence is replaced by `N`; the leading
assert compares the two list lengths; after the loop the source computes
`end - frag_end`, which raises `UnboundLocalError` when the loop never ran. -/
def _assemble_seq (frags : List String) (start stop : Int)
    (frag_positions : List (Int × Int)) : Except Err String :=
  if frag_positions.length ≠ frags.length then .error .mismatchedCounts
  else
    match assembleFrags (frag_positions.zip frags) start with
    | .error e => .error e
    | .ok (_, none) => .error .unboundFragEnd
    | .ok (body, some fragEnd) =>
      if stop - fragEnd < 0 then .error .endBeforeFragEnd
      else .ok (body ++ nFill (stop - fragEnd))

/-- Whether an assembler run succeeded (no assertion failure or crash). -/
def resultOk (r : Except Err String) : Bool :=
  match r with
  | .ok _ => true
  | .error _ => false

/-- Fragment positions are in ascending, non-overlapping order starting from
`prev`: each fragment's start is at or after the previous fragment's end
(`prev` is the requested interval start for the first fragment). -/
def orderedFrom (prev : Int) : List (Int × Int) → Bool
  | [] => true
  | (fragStart, fragEnd) :: rest => decide (prev ≤ fragStart) && orderedFrom fragEnd rest

/-- End position of the last fragment, or `d` when the list is empty. -/
def lastEnd (d : Int) : List (Int × Int) → Int
  | [] => d
  | [(_, fragEnd)] => fragEnd
  | _ :: rest => lastEnd d rest

/-- Modelled from the spec: one entry of the ranked coordinate-system registry
(`CoordSystem` of `assembly.py`, not under `src/`; spec section 3
`CoordSystem`): a name, a positive rank, and whether it is the sequence-level
system. -/
structure CoordSysRec where
  name : String
  rank : Nat
  seq_level : Bool
deriving DecidableEq, Repr

/-- Modelled from the spec: `coord_system[name].rank` — rank of the named
coordinate system, `none` on a missing key. -/
def coordSystemRank (systems : List CoordSysRec) (name : String) : Option Nat :=
  (systems.find? (fun r => r.name = name)).map (·.rank)

/-- Modelled from the spec: `CoordSystem(..., seq_level=True)` — the name of
the sequence-level coordinate system (spec: exactly one system per organism
has `is_sequence_level = true`). -/
def seqLevelName (systems : List CoordSysRec) : Option String :=
  (systems.find? (fun r => r.seq_level)).map (·.name)

/-- Rank of the sequence-level coordinate system. -/
def seqLevelRank (systems : List CoordSysRec) : Option Nat :=
  (systems.find? (fun r => r.seq_level)).map (·.rank)

/-- Name of the first registry entry holding the given rank, `none` when no
system is registered at that rank (the `next(..., None)` expression of
`get_lower_coord_conversion`). -/
def rankName (systems : List CoordSysRec) (rank : Nat) : Option String :=
  (systems.find? (fun r => r.rank = rank)).map (·.name)

/-- External environment of the sequence assembly.  `systems` is the
coordinate-system registry; `conv` is `get_coord_conversion(coord,
coord_type, core_db)` (assembly.py, not under `src/` — the spec's
`fetch_mapping` capability, section 6), returning ordered (query, target)
segment pairs; `dna` is the content of the `dna` table keyed by
`seq_region_id`. -/
structure Env where
  systems : List CoordSysRec
  conv : Coordinate → String → List (Coordinate × Coordinate)
  dna : Int → String

/-- Heap of Python `Coordinate` objects: references are list indices,
allocation appends at the end. -/
abbrev Store := List Coordinate

/-- SQL `substr(s, pos, len)`: `len` characters of `s` from 1-based
position `pos`. -/
def substr (s : String) (pos : Int) (len : Nat) : String :=
  String.mk (((s.toList).drop (pos - 1).toNat).take len)

/-- Fragment-fetch loop of `_get_sequence_from_direct_assembly` (sequence.py
lines 96-110): for each (query, target) segment pair, assert the query strand
is forward, slice the dna table with `substr` at the target's 1-based start,
reverse-complement the fragment when the target strand is reverse, and record
the query interval. -/
def fetchFrags (env : Env) :
    List (Coordinate × Coordinate) → Except Err (List String × List (Int × Int))
  | [] => .ok ([], [])
  | (q_loc, t_loc) :: rest =>
    if q_loc.strand ≠ 1 then .error .qLocStrandNot1
    else
      let length := coordLen t_loc
      let seq := substr (env.dna t_loc.seq_region_id) t_loc.ensembl_start length.toNat
      let seq := if t_loc.strand = -1 then rcStr seq else seq
      match fetchFrags env rest with
      | .error e => .error e
      | .ok (seqs, positions) =>
        .ok (seq :: seqs, (q_loc.start, q_loc.stop) :: positions)

/-- Rank list of `range(query_rank + 1, seq_level_rank)`. -/
def rankRange (query_rank seq_level_rank : Nat) : List Nat :=
  List.range' (query_rank + 1) (seq_level_rank - (query_rank + 1))

/-- Loop of `get_lower_coord_conversion` (sequence.py lines 57-72): walk the
ranks in order; a rank with no registered system is skipped (`continue`); at a
registered rank fetch the conversion, stopping at the first non-empty result.
The accumulator mirrors the Python `assemblies` variable (`none` = still the
initial `None`, `some []` = the last attempt returned an empty list). -/
def rankWalk (env : Env) (coord : Coordinate) :
    List Nat → Option (List (Coordinate × Coordinate)) →
    Option (List (Coordinate × Coordinate))
  | [], assemblies => assemblies
  | rank :: rest, assemblies =>
    match rankName env.systems rank with
    | none => rankWalk env coord rest assemblies
    | some coord_type =>
      let a := env.conv coord coord_type
      if a.isEmpty then rankWalk env coord rest (some a) else some a

/-- Embedding of `get_lower_coord_conversion(coord, species, core_db)`
(sequence.py lines 51-74): look up the query system's rank and the
sequence-level rank, then try a direct conversion at every rank strictly
between them, in increasing order, returning the first non-empty result (or
the final value of the `assemblies` variable). -/
def get_lower_coord_conversion (env : Env) (coord : Coordinate) :
    Except Err (Option (List (Coordinate × Coordinate))) :=
  match coordSystemRank env.systems coord.coord_type, seqLevelRank env.systems with
  | some query_rank, some seq_level_rank =>
    .ok (rankWalk env coord (rankRange query_rank seq_level_rank) none)
  | _, _ => .error .keyError

/-- Embedding of `_get_sequence_from_direct_assembly(coord)` (sequence.py
lines 77-111).  The function first mutates the passed coordinate's strand to
`+1` in place (line 81), fetches the conversion to the sequence-level system,
raises `NoItemError` when it is empty, fetches and orients each fragment, and
assembles.  Returns the result together with the updated store. -/
def _get_sequence_from_direct_assembly (env : Env) (s : Store) (r : Nat) :
    Except Err String × Store :=
  let s1 := s.set r { s.getD r default with strand := 1 }
  let coord := s1.getD r default
  match seqLevelName env.systems with
  | none => (.error .keyError, s1)
  | some sl =>
    let assemblies := env.conv coord sl
    if assemblies.isEmpty then (.error .noItem, s1)
    else
      match fetchFrags env assemblies with
      | .error e => (.error e, s1)
      | .ok (seqs, positions) =>
        (_assemble_seq seqs coord.start coord.stop positions, s1)

/-- Per-pair loop of `_get_sequence_from_lower_assembly` (sequence.py lines
125-137): remember the target strand, resolve the target coordinate through
the direct assembly (which mutates the freshly fetched target object, hence
the allocation), reverse-complement when the remembered strand was reverse,
and record the query interval. -/
def lowerLoop (env : Env) :
    List (Coordinate × Coordinate) → Store →
    Except Err (List String × List (Int × Int)) × Store
  | [], s => (.ok ([], []), s)
  | (q_loc, t_loc) :: rest, s =>
    let t_strand := t_loc.strand
    let s1 := s ++ [t_loc]
    let dres := _get_sequence_from_direct_assembly env s1 s.length
    match dres.1 with
    | .error e => (.error e, dres.2)
    | .ok temp0 =>
      let temp_seq := if t_strand = -1 then rcStr temp0 else temp0
      let rres := lowerLoop env rest dres.2
      match rres.1 with
      | .error e => (.error e, rres.2)
      | .ok (seqs, positions) =>
        (.ok (temp_seq :: seqs, (q_loc.start, q_loc.stop) :: positions), rres.2)

/-- Embedding of `_get_sequence_from_lower_assembly(coord)` (sequence.py lines
114-139): fetch the indirect conversion, raise `NoItemError` when it is falsy
(`None` or empty), resolve every target through the direct assembly and
assemble the results over the query intervals. -/
def _get_sequence_from_lower_assembly (env : Env) (s : Store) (r : Nat) :
    Except Err String × Store :=
  let coord := s.getD r default
  match get_lower_coord_conversion env coord with
  | .error e => (.error e, s)
  | .ok assembliesOpt =>
    let assemblies := assembliesOpt.getD []
    if assemblies.isEmpty then (.error .noItem, s)
    else
      let lres := lowerLoop env assemblies s
      match lres.1 with
      | .error e => (.error e, lres.2)
      | .ok (seqs, positions) =>
        (_assemble_seq seqs coord.start coord.stop positions, lres.2)

/-- Embedding of `_make_coord(genome, coord_name, start, end, strand)`
(sequence.py lines 44-48); the coordinate-system name of a freshly built
coordinate is the default of the `Coordinate` constructor. -/
def _make_coord (coord_name : String) (start stop strand : Int) : Coordinate :=
  { coord_name := coord_name, start := start, stop := stop, strand := strand }

/-- Embedding of `get_sequence(coord, genome, coord_name, start, end, strand)`
(sequence.py lines 142-167).  With no coordinate a fresh one is built with
strand literal `1` (the `strand` argument is not used there, exactly as in
the source); a passed coordinate is copied.  The requested strand is then
read from the working object, direct assembly is tried, `NoItemError` (and
only `NoItemError`) triggers the indirect fallback, and the result is
reverse-complemented when the saved strand was `-1`. -/
def get_sequence (env : Env) (s : Store) (coordRef : Option Nat)
    (coord_name : String) (start stop strand : Int) : Except Err String × Store :=
  let c0 := match coordRef with
    | none => _make_coord coord_name start stop 1
    | some r0 => s.getD r0 default
  let s1 := s ++ [c0]
  let r := s.length
  let strand := (s1.getD r default).strand
  let dres := _get_sequence_from_direct_assembly env s1 r
  let tried := match dres.1 with
    | .error .noItem => _get_sequence_from_lower_assembly env dres.2 r
    | _ => dres
  match tried.1 with
  | .error e => (.error e, tried.2)
  | .ok sq => (.ok (if strand = -1 then rcStr sq else sq), tried.2)

/-- Modelled from the spec: CigarOp kinds (spec sections 3, 6): `M` = Match,
`D` = TargetGap (gap in this member's sequence), `I` = QueryGap. -/
inductive CigarKind where
  | M
  | D
  | I
deriving DecidableEq, Repr

/-- Modelled from the spec: one run-length alignment operator (spec section 3).
The cigar codec and slicer live in `cogent3.parse.cigar`, outside this
repository; they are modelled from spec sections 4.4 and 4.5. -/
structure CigarOp where
  kind : CigarKind
  length : Nat
deriving DecidableEq, Repr

/-- Modelled from the spec: operator letters of the token format
(spec section 6). -/
def parseKind (c : Char) : Option CigarKind :=
  if c = 'M' then some .M
  else if c = 'D' then some .D
  else if c = 'I' then some .I
  else none

/-- Modelled from the spec: cigar decoding (spec 4.4), a stream of
`<length><operator>` tokens; Ensembl cigar lines omit a count of one, so an
operator with no preceding digits has length 1.  `acc` is the pending digit
value; pending digits at the end of input (or an unrecognized operator) are
malformed. -/
def parseCigarAux : List Char → Nat → Option (List CigarOp)
  | [], 0 => some []
  | [], _ + 1 => none
  | c :: rest, acc =>
    if c.isDigit then parseCigarAux rest (acc * 10 + (c.toNat - 48))
    else
      match parseKind c with
      | none => none
      | some k =>
        (parseCigarAux rest 0).map (fun l => ⟨k, if acc = 0 then 1 else acc⟩ :: l)

/-- Modelled from the spec: decode a cigar string (spec 4.4). -/
def parseCigar (s : String) : Option (List CigarOp) :=
  parseCigarAux s.toList 0

/-- Sequence-space span of one operator (spec 4.5: an op advances
sequence-space only if it consumes sequence, i.e. Match or QueryGap). -/
def seqSpan (op : CigarOp) : Nat :=
  match op.kind with
  | .M => op.length
  | .I => op.length
  | .D => 0

/-- Column-space span of one operator (spec 4.5: every op advances
column-space by its length). -/
def colSpan (op : CigarOp) : Nat := op.length

/-- Span of one operator in the requested slicing space (`byAlign = true` is
alignment-column space). -/
def reqSpan (byAlign : Bool) (op : CigarOp) : Nat :=
  if byAlign then colSpan op else seqSpan op

/-- Span of one operator in the other space. -/
def othSpan (byAlign : Bool) (op : CigarOp) : Nat :=
  if byAlign then seqSpan op else colSpan op

/-- Modelled from the spec: skip phase of the slicer (spec 4.5) — consume `lo`
units of the requested space, returning the remaining operators (an operator
straddling the boundary is split, keeping only its uncovered part) and the
other-space offset of the cut point; `none` when `lo` exceeds the total
length. -/
def cigarCut (byAlign : Bool) : List CigarOp → Nat → Option (List CigarOp × Nat)
  | ops, 0 => some (ops, 0)
  | [], _ + 1 => none
  | op :: rest, k + 1 =>
    if reqSpan byAlign op ≤ k + 1 then
      (cigarCut byAlign rest (k + 1 - reqSpan byAlign op)).map
        (fun p => (p.1, othSpan byAlign op + p.2))
    else
      some ({ op with length := op.length - (k + 1) } :: rest,
            othSpan byAlign ⟨op.kind, k + 1⟩)

/-- Modelled from the spec: take phase of the slicer (spec 4.5) — emit
operators covering `k` units of the requested space (splitting a straddling
operator, keeping its covered part) together with the other-space width of the
emitted slice; `none` when `k` exceeds the remaining length. -/
def cigarTake (byAlign : Bool) : List CigarOp → Nat → Option (List CigarOp × Nat)
  | _, 0 => some ([], 0)
  | [], _ + 1 => none
  | op :: rest, k + 1 =>
    if reqSpan byAlign op ≤ k + 1 then
      (cigarTake byAlign rest (k + 1 - reqSpan byAlign op)).map
        (fun p => (op :: p.1, othSpan byAlign op + p.2))
    else
      some ([⟨op.kind, k + 1⟩], othSpan byAlign ⟨op.kind, k + 1⟩)

/-- Modelled from the spec: slice a decoded operator list over `[lo, hi)` of
the requested space (spec 4.5), returning the sliced operators and the
corresponding `[lo, hi)` of the other space; out-of-range bounds fail. -/
def slice_ops (byAlign : Bool) (ops : List CigarOp) (lo hi : Int) :
    Option (List CigarOp × (Int × Int)) :=
  if lo < 0 ∨ hi < lo then none
  else
    match cigarCut byAlign ops lo.toNat with
    | none => none
    | some (rest, othLo) =>
      match cigarTake byAlign rest (hi - lo).toNat with
      | none => none
      | some (sliced, othWidth) =>
        some (sliced, ((othLo : Int), (othLo : Int) + othWidth))

/-- Modelled from the spec: `cigar.slice_cigar(cigar_line, start, end,
by_align)` of cogent3 — decode then slice; any failure (malformed string,
out-of-range bounds) is the `IndexError` the source mentions. -/
def slice_cigar (line : String) (lo hi : Int) (by_align : Bool) :
    Option (List CigarOp × (Int × Int)) :=
  match parseCigar line with
  | none => none
  | some ops => slice_ops by_align ops lo hi

/-- Modelled from the spec: gap reinsertion (spec 4.6 step 4), the
`Aligned(aln_map, seq)` construction of cogent3: Match consumes and emits
bases, TargetGap emits gap fillers without consuming, QueryGap consumes
without emitting. -/
def applyMap : List CigarOp → List Char → List Char
  | [], _ => []
  | op :: rest, s =>
    match op.kind with
    | .M => s.take op.length ++ applyMap rest (s.drop op.length)
    | .D => List.replicate op.length '-' ++ applyMap rest s
    | .I => applyMap rest (s.drop op.length)

/-- String version of `applyMap`. -/
def applyMapStr (ops : List CigarOp) (s : String) : String :=
  String.mk (applyMap ops s.toList)

/-- One `genomic_align` row as cached on a `SyntenicRegion`
(`identifiers_values`): region name, Ensembl 1-based inclusive fragment
bounds, strand, and the member's cigar line (fetched by `_get_cigar_record`
in the source; carried as data here). -/
structure MemberRecord where
  name : String
  dnafrag_start : Int
  dnafrag_end : Int
  dnafrag_strand : Int
  cigar_line : String
deriving DecidableEq, Repr

/-- Modelled from the spec: `genome.make_location(..., ensembl_coord=True)` —
build a half-open zero-based coordinate from Ensembl 1-based inclusive bounds
(spec section 3: the external 1-based convention is converted at the
boundary). -/
def make_location (name : String) (start stop strand : Int) : Coordinate :=
  { coord_name := name, start := start - 1, stop := stop, strand := strand }

/-- External environment of the syntenic-block construction: `getSeq` is the
resolution of a region location to its (strand-oriented) nucleotide sequence
(`genome.get_region(...).Seq`, backed by Part A's `get_sequence`; genome code
is not under `src/`).  Modelled from the spec: a `NoMapping` failure
(`NoItemError`) is `none` and drops the member (spec 4.6 step 3, section 7). -/
structure ComparaEnv where
  getSeq : Coordinate → Option String

/-- Embedding of `SyntenicRegion._make_ref_map` (related_region.py lines
146-176): build the block location from the member record, compute the
reference coordinate's offset within the block — reflecting the offsets when
the block strand is not forward — slice the member's cigar line by
sequence-offset space (`by_align=False`), and return the sliced map, the
column bounds `aln_loc`, and the region location (the reference location with
the block's strand).  `none` is an uncaught slice failure. -/
def _make_ref_map (refRec : MemberRecord)
    (ref_location : Coordinate) :
    Option (List CigarOp × (Int × Int) × Coordinate) :=
  let block_loc := make_location refRec.name refRec.dnafrag_start
      refRec.dnafrag_end refRec.dnafrag_strand
  let rs0 := ref_location.start - block_loc.start
  let re0 := rs0 + coordLen ref_location
  let rs1 := if block_loc.strand ≠ 1 then coordLen block_loc - re0 else rs0
  let re1 := if block_loc.strand ≠ 1 then rs1 + coordLen ref_location else re0
  match slice_cigar refRec.cigar_line rs1 re1 false with
  | none => none
  | some (aln_map, aln_loc) =>
    some (aln_map, aln_loc, { ref_location with strand := block_loc.strand })

/-- Embedding of `SyntenicRegion._make_map_from_ref` (related_region.py lines
178-212): slice this member's cigar line by alignment-column space
(`by_align=True`) over the parent's `(CigarStart, CigarEnd)`, then build the
member's region location from the returned sequence-space bounds: the block
location truncated to the sliced length and shifted (reflected when the block
strand is not forward).  A slice failure is the caught `IndexError`: the
member's region becomes `None`. -/
def _make_map_from_ref (memRec : MemberRecord)
    (cigarStart cigarEnd : Int) :
    Option (List CigarOp × (Int × Int) × Coordinate) :=
  match slice_cigar memRec.cigar_line cigarStart cigarEnd true with
  | none => none
  | some (aln_map, aln_loc) =>
    let block_loc := make_location memRec.name memRec.dnafrag_start
        memRec.dnafrag_end memRec.dnafrag_strand
    let relative_start := aln_loc.1
    let relative_end := aln_loc.2
    let loc0 := { block_loc with
                  stop := block_loc.start + (relative_end - relative_start) }
    let shift := if block_loc.strand ≠ 1 then coordLen block_loc - relative_end
                 else relative_start
    some (aln_map, aln_loc, shifted loc0 shift)

/-- One member of a syntenic block: its record and the
`am_ref_member` dispatch flag chosen at construction
(related_region.py lines 100-104). -/
structure SynMember where
  memRec : MemberRecord
  am_ref_member : Bool
deriving DecidableEq, Repr

/-- The member's region location and gapped aligned sequence
(`SyntenicRegion._make_aligned` + `AlignedSeq`, related_region.py lines
214-235): dispatch on `am_ref_member`, resolve the region location's
sequence, and reinsert gaps with the member's sliced map.  `none` when the
map failed (`Region is None`) or sequence resolution failed (modelled from
the spec: `NoMapping` drops the member). -/
def member_seq_and_loc (env : ComparaEnv) (ref_location : Coordinate)
    (cigarStart cigarEnd : Int) (m : SynMember) :
    Option (Coordinate × String) :=
  match (if m.am_ref_member then _make_ref_map m.memRec ref_location
         else _make_map_from_ref m.memRec cigarStart cigarEnd) with
  | none => none
  | some (aln_map, _, loc) =>
    match env.getSeq loc with
    | none => none
    | some sq => some (loc, applyMapStr aln_map sq)

/-- Member loop of `SyntenicRegions.get_alignment` (related_region.py lines
324-340): skip members whose aligned sequence is `None`; when the block is to
be reverse-complemented, the displayed name carries the flipped strand. -/
def collect_seqs (env : ComparaEnv) (ref_location : Coordinate)
    (cigarStart cigarEnd : Int) (do_rc : Bool) :
    List SynMember → List (Coordinate × String)
  | [] => []
  | m :: rest =>
    match member_seq_and_loc env ref_location cigarStart cigarEnd m with
    | none => collect_seqs env ref_location cigarStart cigarEnd do_rc rest
    | some (loc, sq) =>
      let nameLoc := if do_rc then { loc with strand := loc.strand * -1 } else loc
      (nameLoc, sq) :: collect_seqs env ref_location cigarStart cigarEnd do_rc rest

/-- Keep the alignment columns that are not gap-only across all rows, in
order (`aln.filtered(lambda x: set(x) != set('-'))`, related_region.py line
351; `filtered` itself is cogent3, modelled from the spec, 4.6 step 6). -/
def filterRedundant (rows : List (Coordinate × String)) :
    List (Coordinate × String) :=
  let n := (rows.head?.map (fun p => p.2.length)).getD 0
  let keep := (List.range n).filter
    (fun i => rows.any (fun p => p.2.toList.getD i '-' ≠ '-'))
  rows.map (fun p => (p.1, String.mk (keep.map (fun i => p.2.toList.getD i '-'))))

/-- A syntenic block as assembled by `SyntenicRegions.__init__`
(related_region.py lines 250-267): the reference member's record, the other
members' records, and the reference location the block was queried with.  The
member order is the reference first, then the others. -/
structure SyntenicBlock where
  ref_rec : MemberRecord
  other_recs : List MemberRecord
  ref_location : Coordinate
deriving DecidableEq, Repr

/-- Embedding of `SyntenicRegions.get_alignment` (related_region.py lines
315-353) together with `_populate_ref` and `_get_rc_state` (lines 282-298):
resolve the reference slice (an uncaught failure aborts), take
`(CigarStart, CigarEnd)` from its column bounds, decide reverse-complement
state by comparing the requested strand with the reference region's resolved
strand, collect every member's gapped sequence (reference first),
reverse-complement the whole alignment when required, and optionally drop
gap-only columns.  The cogent3 `Alignment` value is modelled from the spec
(section 3 `AlignmentBlock`) as the list of (location, gapped sequence)
rows. -/
def get_alignment (env : ComparaEnv) (blk : SyntenicBlock)
    (omit_redundant : Bool) : Option (List (Coordinate × String)) :=
  match _make_ref_map blk.ref_rec blk.ref_location with
  | none => none
  | some (_, aln_loc, region_loc) =>
    let cigarStart := aln_loc.1
    let cigarEnd := aln_loc.2
    let do_rc := decide (blk.ref_location.strand ≠ region_loc.strand)
    let mems : List SynMember :=
      ⟨blk.ref_rec, true⟩ :: blk.other_recs.map (fun m => ⟨m, false⟩)
    let seqs := collect_seqs env blk.ref_location cigarStart cigarEnd do_rc mems
    let aln := if do_rc then seqs.map (fun p => (p.1, rcStr p.2)) else seqs
    some (if omit_redundant then filterRedundant aln else aln)

/-- Offset of the reference slice window, written from the spec's words
(spec 4.6 step 1 and the reflection sentence of the claim): the reference
coordinate's offset within the block, reflected to
`block length - relative_end` when the block location is on the reverse
strand.  Used to compare `_make_ref_map` against the spec. -/
def spec_ref_slice_start (refRec : MemberRecord) (ref_location : Coordinate) : Int :=
  let block_loc := make_location refRec.name refRec.dnafrag_start
      refRec.dnafrag_end refRec.dnafrag_strand
  let offset := ref_location.start - block_loc.start
  if block_loc.strand ≠ 1 then
    coordLen block_loc - (offset + coordLen ref_location)
  else offset

/-- Concrete environment for the 3-member scenario: resolution of the
`chrF` member's interval fails (`NoMapping`), every other location
resolves. -/
def envC7 : ComparaEnv :=
  { getSeq := fun l => if l.coord_name = "chrF" then none
      else if l.coord_name = "chrR" then some "ACTG" else some "ACG" }
/-- Concrete 3-member syntenic block whose `chrF` member fails to resolve. -/
def blkC7 : SyntenicBlock :=
  { ref_rec := { name := "chrR", dnafrag_start := 1, dnafrag_end := 4, dnafrag_strand := 1, cigar_line := "4M" }
  , other_recs :=
      [ { name := "chrF", dnafrag_start := 21, dnafrag_end := 24, dnafrag_strand := 1, cigar_line := "4M" }
      , { name := "chr7", dnafrag_start := 11, dnafrag_end := 13, dnafrag_strand := 1, cigar_line := "2M1D1M" } ]
  , ref_location := { coord_name := "chrR", start := 0, stop := 4, strand := 1 } }

/-- Concrete environment for the 2-member column-filtering and orientation
scenarios. -/
def envC9 : ComparaEnv :=
  { getSeq := fun l => if l.coord_name = "chrA" then some "ACG" else some "ATA" }
/-- Concrete 2-member, 4-column block whose third column is gap-only in both
members. -/
def blkC9 : SyntenicBlock :=
  { ref_rec := { name := "chrA", dnafrag_start := 1, dnafrag_end := 3, dnafrag_strand := 1, cigar_line := "2M1D1M" }
  , other_recs :=
      [ { name := "chrB", dnafrag_start := 11, dnafrag_end := 13, dnafrag_strand := 1, cigar_line := "2M1D1M" } ]
  , ref_location := { coord_name := "chrA", start := 0, stop := 3, strand := 1 } }

/-- Concrete block whose stored (block) strand is reverse while the request
is forward, forcing orientation normalization. -/
def blkC8 : SyntenicBlock :=
  { ref_rec := { name := "chrA", dnafrag_start := 1, dnafrag_end := 3, dnafrag_strand := -1, cigar_line := "3M" }
  , other_recs := []
  , ref_location := { coord_name := "chrA", start := 0, stop := 3, strand := 1 } }

/-- Success of the fragment-loop result. -/
def fragsOk (r : Except Err (String × Option Int)) : Bool :=
  match r with
  | .ok _ => true
  | .error _ => false

theorem lastEnd_irrel (ps : List (Int × Int)) (d d' : Int) (h : ps ≠ []) :
    lastEnd d ps = lastEnd d' ps := by
  induction ps with
  | nil => exact absurd rfl h
  | cons hd tl ih =>
    cases tl with
    | nil => rfl
    | cons hd2 tl2 => simpa [lastEnd] using ih (by simp)

theorem assembleFrags_ok_iff (l : List ((Int × Int) × String)) (prev : Int) :
    fragsOk (assembleFrags l prev) = true ↔
      orderedFrom prev (l.map Prod.fst) = true := by
  induction l generalizing prev with
  | nil => simp [assembleFrags, orderedFrom, fragsOk]
  | cons hd tl ih =>
    obtain ⟨⟨a, b⟩, f⟩ := hd
    simp only [assembleFrags, orderedFrom, List.map]
    by_cases h : a - prev < 0
    · have hna : ¬ prev ≤ a := by omega
      simp [h, fragsOk, hna]
    · have ha : prev ≤ a := by omega
      have := ih b
      cases hres : assembleFrags tl b with
      | error e =>
        rw [hres] at this
        simp [h, hres, fragsOk, ha] at this ⊢
        exact this
      | ok p =>
        rw [hres] at this
        simp [h, hres, fragsOk, ha] at this ⊢
        exact this

theorem assembleFrags_last (l : List ((Int × Int) × String)) (prev : Int)
    (body : String) (last : Option Int)
    (h : assembleFrags l prev = .ok (body, last)) (hne : l ≠ []) :
    last = some (lastEnd prev (l.map Prod.fst)) := by
  induction l generalizing prev body last with
  | nil => exact absurd rfl hne
  | cons hd tl ih =>
    obtain ⟨⟨a, b⟩, f⟩ := hd
    simp only [assembleFrags] at h
    by_cases hlt : a - prev < 0
    · simp [hlt] at h
    · simp only [hlt, if_false] at h
      cases hres : assembleFrags tl b with
      | error e => rw [hres] at h; exact absurd h (by simp)
      | ok p =>
        rw [hres] at h
        obtain ⟨body2, last2⟩ := p
        simp only [Except.ok.injEq, Prod.mk.injEq] at h
        cases tl with
        | nil =>
          have : last2 = none := by
            have := hres
            simp [assembleFrags] at this
            exact this.2.symm
          simp [← h.2, this, lastEnd]
        | cons hd2 tl2 =>
          have hlast2 := ih b body2 last2 hres (by simp)
          rw [← h.2, hlast2]
          simp only [Option.getD_some, List.map, lastEnd]
          exact congrArg some (lastEnd_irrel _ b prev (by simp))

/-- C1: the claim requires the assembled output to have length `end - start`
for every valid fragment list, including the empty one (pure filler).  The
code is a slip there: with no fragments the loop never binds `frag_end`, so
the post-loop `diff = end - frag_end` raises `UnboundLocalError` instead of
returning `"NNNNN"`; the docstring ("missing sequence is replaced by 'N'")
and the spec agree on the intent. -/
theorem assemble_seq_empty_fragment_list_crashes :
    _assemble_seq [] 0 5 [] = .error .unboundFragEnd := rfl

/-- C2 counterexample: the assembler can fail although no fragment's start
precedes the end of its predecessor — a single in-order fragment whose end
exceeds the requested end trips the post-loop `assert diff >= 0`, so
"fails iff some fragment's start precedes its predecessor's end" is false. -/
theorem assemble_seq_fails_without_any_overlap :
    _assemble_seq ["AA"] 0 1 [(0, 2)] = .error .endBeforeFragEnd ∧
      orderedFrom 0 [(0, 2)] = true := by
  exact ⟨rfl, rfl⟩

/-- C2 as amended: with matching fragment/position counts and a non-empty
fragment list, the assembler succeeds exactly when the positions are in
ascending non-overlapping order from the requested start AND the last
fragment's end does not exceed the requested end; equivalently, an assertion
failure is raised iff some fragment's start precedes its predecessor's end or
the final fragment overruns the requested interval. -/
theorem assemble_seq_ok_iff_ordered_and_bounded (frags : List String)
    (start stop : Int) (ps : List (Int × Int))
    (hlen : ps.length = frags.length) (hne : ps ≠ []) :
    resultOk (_assemble_seq frags start stop ps) = true ↔
      (orderedFrom start ps = true ∧ lastEnd start ps ≤ stop) := by
  have hmap : (ps.zip frags).map Prod.fst = ps :=
    List.map_fst_zip ps frags (le_of_eq hlen)
  have hzne : ps.zip frags ≠ [] := by
    have hl : (ps.zip frags).length = ps.length := by
      rw [List.length_zip, ← hlen, min_self]
    intro hcon
    rw [hcon] at hl
    simp at hl
    exact hne (List.eq_nil_of_length_eq_zero hl.symm)
  simp only [_assemble_seq, hlen, ne_eq, not_true_eq_false, if_false]
  cases hres : assembleFrags (ps.zip frags) start with
  | error e =>
    have hok := (assembleFrags_ok_iff (ps.zip frags) start)
    rw [hres, hmap] at hok
    simp [fragsOk] at hok
    simp [resultOk, hok]
  | ok p =>
    obtain ⟨body, last⟩ := p
    have hok := (assembleFrags_ok_iff (ps.zip frags) start)
    rw [hres, hmap] at hok
    simp [fragsOk] at hok
    have hlast := assembleFrags_last (ps.zip frags) start body last hres hzne
    rw [hmap] at hlast
    subst hlast
    simp only [hok, true_and]
    by_cases hb : stop - lastEnd start ps < 0
    · simp [hb, resultOk]; omega
    · simp [hb, resultOk]; omega

/-- Witness for the amended C2 theorem at a concrete in-order input. -/
theorem assemble_seq_ok_iff_ordered_and_bounded_witness :
    ([((1 : Int), (3 : Int))].length = (["AC"] : List String).length) ∧
      ([((1 : Int), (3 : Int))] ≠ []) ∧
      (resultOk (_assemble_seq ["AC"] 0 4 [(1, 3)]) = true ↔
        (orderedFrom 0 [(1, 3)] = true ∧ lastEnd 0 [(1, 3)] ≤ 4)) :=
  ⟨by decide, by decide,
    assemble_seq_ok_iff_ordered_and_bounded ["AC"] 0 4 [(1, 3)] (by decide) (by decide)⟩

theorem rankWalk_first_yield (env : Env) (coord : Coordinate) :
    ∀ (len strt : Nat) (acc : Option (List (Coordinate × Coordinate)))
      (r : Nat) (ct : String),
      strt ≤ r → r < strt + len →
      rankName env.systems r = some ct →
      env.conv coord ct ≠ [] →
      (∀ r', strt ≤ r' → r' < r → ∀ ct',
          rankName env.systems r' = some ct' → env.conv coord ct' = []) →
      rankWalk env coord (List.range' strt len) acc = some (env.conv coord ct) := by
  intro len
  induction len with
  | zero => intro strt acc r ct h1 h2; omega
  | succ n ih =>
    intro strt acc r ct h1 h2 hname hnonempty hfirst
    rw [List.range'_succ]
    simp only [rankWalk]
    cases hn : rankName env.systems strt with
    | none =>
      have hrs : strt ≠ r := fun hc => by rw [hc, hname] at hn; cases hn
      exact ih (strt + 1) acc r ct (by omega) (by omega) hname hnonempty
        (fun r' hr1 hr2 => hfirst r' (by omega) hr2)
    | some ct0 =>
      by_cases hr : r = strt
      · have hct : ct0 = ct := by
          rw [← hr] at hn
          rw [hn] at hname
          exact Option.some.inj hname
        subst hct hr
        simp [hnonempty, List.isEmpty_iff]
      · have hlt : strt < r := lt_of_le_of_ne h1 (fun hc => hr hc.symm)
        have hempty : env.conv coord ct0 = [] :=
          hfirst strt (le_refl strt) hlt ct0 hn
        simp only [hempty, List.isEmpty_nil, if_true]
        exact ih (strt + 1) (some []) r ct (by omega) (by omega) hname hnonempty
          (fun r' hr1 hr2 => hfirst r' (by omega) hr2)

/-- C4: when no direct correspondence exists, `get_lower_coord_conversion`
walks the ranks strictly between the query system's rank and the
sequence-level rank in increasing order, skips ranks with no registered
system, and returns the segment pairs of the first rank whose conversion is
non-empty. -/
theorem get_lower_conversion_first_yielding_rank (env : Env) (coord : Coordinate)
    (qr sr r : Nat) (ct : String)
    (hq : coordSystemRank env.systems coord.coord_type = some qr)
    (hs : seqLevelRank env.systems = some sr)
    (hlo : qr < r) (hhi : r < sr)
    (hname : rankName env.systems r = some ct)
    (hnonempty : env.conv coord ct ≠ [])
    (hfirst : ∀ r', qr < r' → r' < r → ∀ ct',
        rankName env.systems r' = some ct' → env.conv coord ct' = []) :
    get_lower_coord_conversion env coord = .ok (some (env.conv coord ct)) := by
  simp only [get_lower_coord_conversion, hq, hs, rankRange]
  rw [rankWalk_first_yield env coord (sr - (qr + 1)) (qr + 1) none r ct
    (by omega) (by omega) hname hnonempty
    (fun r' hr1 hr2 => hfirst r' (by omega) hr2)]

/-- Witness for C4: rank 3 carries no registered system (it is skipped), the
scaffold system at rank 2 is the first intermediate rank and yields pairs. -/
theorem get_lower_conversion_first_yielding_rank_witness :
    (coordSystemRank [⟨"chromosome", 1, false⟩, ⟨"scaffold", 2, false⟩,
        ⟨"contig", 4, true⟩] "chromosome" = some 1) ∧
    (get_lower_coord_conversion
      { systems := [⟨"chromosome", 1, false⟩, ⟨"scaffold", 2, false⟩, ⟨"contig", 4, true⟩]
      , conv := fun c _ => [(c, c)]
      , dna := fun _ => "" }
      { coord_name := "q", start := 0, stop := 2 }
      = .ok (some [({ coord_name := "q", start := 0, stop := 2 },
                    { coord_name := "q", start := 0, stop := 2 })])) :=
  ⟨by decide,
    get_lower_conversion_first_yielding_rank
      { systems := [⟨"chromosome", 1, false⟩, ⟨"scaffold", 2, false⟩, ⟨"contig", 4, true⟩]
      , conv := fun c _ => [(c, c)]
      , dna := fun _ => "" }
      { coord_name := "q", start := 0, stop := 2 } 1 4 2 "scaffold"
      (by decide) (by decide) (by decide) (by decide) (by decide) (by decide)
      (fun r' h1 h2 => (by omega : False).elim)⟩

theorem getD_append_length (s : List Coordinate) (c : Coordinate) :
    (s ++ [c]).getD s.length default = c := by
  induction s with
  | nil => rfl
  | cons hd tl ih => simp only [List.cons_append, List.length_cons, List.getD_cons_succ]; exact ih

theorem set_append_length (s : List Coordinate) (c x : Coordinate) :
    (s ++ [c]).set s.length x = s ++ [x] := by
  induction s with
  | nil => rfl
  | cons hd tl ih => simp [List.set, ih]

theorem getD_set_append (s : List Coordinate) (c x : Coordinate) :
    ((s ++ [c]).set s.length x).getD s.length default = x := by
  rw [set_append_length, getD_append_length]

/-- C5: if the direct conversion of the (forward-forced) working coordinate to
the sequence-level system is empty, `get_sequence` falls back to the indirect
rank walk, and if that walk yields nothing either (`None` or an empty list),
the call reports the typed `NoItemError` — not a different error and not an
empty sequence.  The statement covers both entry modes (a passed coordinate or
keyword arguments) through `c0`. -/
theorem get_sequence_signals_no_mapping (env : Env) (s : Store)
    (coordRef : Option Nat) (coord_name : String) (start stop strand : Int)
    (c0 : Coordinate) (sl : String) (w : Option (List (Coordinate × Coordinate)))
    (hc0 : (match coordRef with
            | none => _make_coord coord_name start stop 1
            | some r0 => s.getD r0 default) = c0)
    (hsl : seqLevelName env.systems = some sl)
    (hdirect : env.conv { c0 with strand := 1 } sl = [])
    (hlower : get_lower_coord_conversion env { c0 with strand := 1 } = .ok w)
    (hempty : w.getD [] = []) :
    (get_sequence env s coordRef coord_name start stop strand).1 = .error .noItem := by
  simp only [get_sequence, hc0, _get_sequence_from_direct_assembly,
    _get_sequence_from_lower_assembly, getD_append_length, set_append_length,
    hsl, hdirect, List.isEmpty_nil, if_true]
  simp only [getD_append_length, hlower, hempty, List.isEmpty_nil, if_true]

/-- Witness for C5: no intermediate rank is registered, the direct conversion
is empty, so the call reports `NoItemError`. -/
theorem get_sequence_signals_no_mapping_witness :
    (get_lower_coord_conversion
        { systems := [⟨"chromosome", 1, false⟩, ⟨"contig", 3, true⟩]
        , conv := fun _ _ => [], dna := fun _ => "" }
        { strand := 1 } = .ok none) ∧
    (get_sequence
        { systems := [⟨"chromosome", 1, false⟩, ⟨"contig", 3, true⟩]
        , conv := fun _ _ => [], dna := fun _ => "" }
        [{ strand := 1 }] (some 0) "" 0 0 0).1 = .error .noItem :=
  ⟨rfl,
    get_sequence_signals_no_mapping
      { systems := [⟨"chromosome", 1, false⟩, ⟨"contig", 3, true⟩]
      , conv := fun _ _ => [], dna := fun _ => "" }
      [{ strand := 1 }] (some 0) "" 0 0 0 { strand := 1 } "contig" none
      rfl rfl rfl rfl rfl⟩

theorem getD_set_self (s : List Coordinate) (r : Nat) (x : Coordinate)
    (h : r < s.length) : (s.set r x).getD r default = x := by
  induction s generalizing r with
  | nil => simp at h
  | cons hd tl ih =>
    cases r with
    | zero => rfl
    | succ k => exact ih k (by simpa using h)

theorem set_of_ge (s : List Coordinate) (r : Nat) (x : Coordinate)
    (h : s.length ≤ r) : s.set r x = s := by
  induction s generalizing r with
  | nil => rfl
  | cons hd tl ih =>
    cases r with
    | zero => simp at h
    | succ k => simp [List.set, ih k (by simpa using h)]

theorem getD_of_ge (s : List Coordinate) (r : Nat) (h : s.length ≤ r) :
    s.getD r default = default := by
  induction s generalizing r with
  | nil => rfl
  | cons hd tl ih =>
    cases r with
    | zero => simp at h
    | succ k => exact ih k (by simpa using h)

theorem getD_set_strand (s : List Coordinate) (r : Nat) :
    ((s.set r { s.getD r default with strand := 1 }).getD r default)
      = { s.getD r default with strand := 1 } := by
  by_cases h : r < s.length
  · exact getD_set_self s r _ h
  · have h1 : s.length ≤ r := le_of_not_lt h
    rw [set_of_ge s r _ h1, getD_of_ge s r h1]
    rfl

theorem direct_assembly_fst_eq (env : Env) (s : Store) (r : Nat) (c : Coordinate)
    (hc : ({ s.getD r default with strand := 1 } : Coordinate) = c) :
    (_get_sequence_from_direct_assembly env s r).1 =
      (match seqLevelName env.systems with
       | none => .error .keyError
       | some sl =>
         if (env.conv c sl).isEmpty then .error .noItem
         else
           match fetchFrags env (env.conv c sl) with
           | .error e => .error e
           | .ok (seqs, positions) => _assemble_seq seqs c.start c.stop positions) := by
  subst hc
  simp only [_get_sequence_from_direct_assembly, getD_set_strand]
  cases seqLevelName env.systems with
  | none => rfl
  | some sl =>
    simp only []
    split
    · rfl
    · split <;> rfl

theorem direct_assembly_snd (env : Env) (s : Store) (r : Nat) :
    (_get_sequence_from_direct_assembly env s r).2
      = s.set r { s.getD r default with strand := 1 } := by
  simp only [_get_sequence_from_direct_assembly]
  cases seqLevelName env.systems with
  | none => rfl
  | some sl =>
    simp only []
    split
    · rfl
    · split <;> rfl

theorem lowerLoop_fst_congr (env : Env) (l : List (Coordinate × Coordinate))
    (s s' : Store) : (lowerLoop env l s).1 = (lowerLoop env l s').1 := by
  induction l generalizing s s' with
  | nil => rfl
  | cons hd rest ih =>
    obtain ⟨q_loc, t_loc⟩ := hd
    have hd1 : (_get_sequence_from_direct_assembly env (s ++ [t_loc]) s.length).1
        = (_get_sequence_from_direct_assembly env (s' ++ [t_loc]) s'.length).1 := by
      rw [direct_assembly_fst_eq env (s ++ [t_loc]) s.length
            { t_loc with strand := 1 } (by rw [getD_append_length]),
          direct_assembly_fst_eq env (s' ++ [t_loc]) s'.length
            { t_loc with strand := 1 } (by rw [getD_append_length])]
    cases hres : (_get_sequence_from_direct_assembly env (s ++ [t_loc]) s.length).1 with
    | error e =>
      have hres' : (_get_sequence_from_direct_assembly env (s' ++ [t_loc]) s'.length).1
          = .error e := by rw [← hd1, hres]
      simp only [lowerLoop, hres, hres']
    | ok temp0 =>
      have hres' : (_get_sequence_from_direct_assembly env (s' ++ [t_loc]) s'.length).1
          = .ok temp0 := by rw [← hd1, hres]
      have ihx := ih (_get_sequence_from_direct_assembly env (s ++ [t_loc]) s.length).2
        (_get_sequence_from_direct_assembly env (s' ++ [t_loc]) s'.length).2
      cases hr : (lowerLoop env rest
          (_get_sequence_from_direct_assembly env (s ++ [t_loc]) s.length).2).1 with
      | error e2 =>
        have hr' : (lowerLoop env rest
            (_get_sequence_from_direct_assembly env (s' ++ [t_loc]) s'.length).2).1
            = .error e2 := by rw [← ihx, hr]
        simp only [lowerLoop, hres, hres', hr, hr']
      | ok p =>
        have hr' : (lowerLoop env rest
            (_get_sequence_from_direct_assembly env (s' ++ [t_loc]) s'.length).2).1
            = .ok p := by rw [← ihx, hr]
        simp only [lowerLoop, hres, hres', hr, hr']

theorem lower_assembly_fst_congr (env : Env) (s s' : Store) (r r' : Nat)
    (h : s.getD r default = s'.getD r' default) :
    (_get_sequence_from_lower_assembly env s r).1
      = (_get_sequence_from_lower_assembly env s' r').1 := by
  simp only [_get_sequence_from_lower_assembly, h]
  cases get_lower_coord_conversion env (s'.getD r' default) with
  | error e => rfl
  | ok aopt =>
    simp only []
    split
    · rfl
    · have hll := lowerLoop_fst_congr env (aopt.getD []) s s'
      cases hl : (lowerLoop env (aopt.getD []) s).1 with
      | error e2 =>
        have hl' : (lowerLoop env (aopt.getD []) s').1 = .error e2 := by rw [← hll, hl]
        simp only [hl, hl']
      | ok p =>
        have hl' : (lowerLoop env (aopt.getD []) s').1 = .ok p := by rw [← hll, hl]
        simp only [hl, hl']

theorem get_sequence_fst (env : Env) (s : Store) (coordRef : Option Nat)
    (n : String) (a b st : Int) (c0 : Coordinate)
    (hc0 : (match coordRef with
            | none => _make_coord n a b 1
            | some r0 => s.getD r0 default) = c0) :
    (get_sequence env s coordRef n a b st).1 =
      match (match (_get_sequence_from_direct_assembly env (s ++ [c0]) s.length).1 with
             | .error .noItem =>
               _get_sequence_from_lower_assembly env
                 (_get_sequence_from_direct_assembly env (s ++ [c0]) s.length).2 s.length
             | _ => _get_sequence_from_direct_assembly env (s ++ [c0]) s.length).1 with
      | .error e => .error e
      | .ok sq => .ok (if c0.strand = -1 then rcStr sq else sq) := by
  simp only [get_sequence, hc0, getD_append_length]
  split
  next e heq => rw [heq]
  next sq heq => rw [heq]

theorem tried_fst_congr (env : Env) (u u' : Store) (i i' : Nat)
    (h : ({ u.getD i default with strand := 1 } : Coordinate)
        = { u'.getD i' default with strand := 1 }) :
    (match (_get_sequence_from_direct_assembly env u i).1 with
     | .error .noItem =>
       _get_sequence_from_lower_assembly env
         (_get_sequence_from_direct_assembly env u i).2 i
     | _ => _get_sequence_from_direct_assembly env u i).1
    = (match (_get_sequence_from_direct_assembly env u' i').1 with
       | .error .noItem =>
         _get_sequence_from_lower_assembly env
           (_get_sequence_from_direct_assembly env u' i').2 i'
       | _ => _get_sequence_from_direct_assembly env u' i').1 := by
  have hfst : (_get_sequence_from_direct_assembly env u i).1
      = (_get_sequence_from_direct_assembly env u' i').1 := by
    rw [direct_assembly_fst_eq env u i _ rfl, direct_assembly_fst_eq env u' i' _ rfl, h]
  have hgd : (_get_sequence_from_direct_assembly env u i).2.getD i default
      = (_get_sequence_from_direct_assembly env u' i').2.getD i' default := by
    rw [direct_assembly_snd, direct_assembly_snd, getD_set_strand, getD_set_strand, h]
  cases hdl : (_get_sequence_from_direct_assembly env u i).1 with
  | ok sq =>
    have hdr : (_get_sequence_from_direct_assembly env u' i').1 = .ok sq := by
      rw [← hfst, hdl]
    simp only [hdl, hdr, ← hfst]
  | error e =>
    have hdr : (_get_sequence_from_direct_assembly env u' i').1 = .error e := by
      rw [← hfst, hdl]
    cases e with
    | noItem =>
      simp only [hdl, hdr]
      exact lower_assembly_fst_congr env _ _ i i' hgd
    | mismatchedCounts => simp only [hdl, hdr, ← hfst]
    | inconsistentAssembly => simp only [hdl, hdr, ← hfst]
    | endBeforeFragEnd => simp only [hdl, hdr, ← hfst]
    | unboundFragEnd => simp only [hdl, hdr, ← hfst]
    | qLocStrandNot1 => simp only [hdl, hdr, ← hfst]
    | keyError => simp only [hdl, hdr, ← hfst]

/-- C3 counterexample: when the interval is requested through the keyword
arguments, the `strand` argument is ignored — `_make_coord` is called with
the literal `1` and the saved strand is read from that forward coordinate —
so a reverse-strand request (`strand = -1`) returns the forward sequence
(`"AC"`) instead of its reverse complement (`"GT"`), falsifying
"reverse-complement is applied iff the originally requested interval was on
the reverse strand". -/
theorem get_sequence_args_ignores_strand :
    (get_sequence
        { systems := [⟨"chromosome", 1, false⟩, ⟨"contig", 2, true⟩]
        , conv := fun c _ => [(c, c)], dna := fun _ => "AC" }
        [] none "chr" 0 2 (-1)).1 = .ok "AC" ∧
      Except.map rcStr (get_sequence
        { systems := [⟨"chromosome", 1, false⟩, ⟨"contig", 2, true⟩]
        , conv := fun c _ => [(c, c)], dna := fun _ => "AC" }
        [] none "chr" 0 2 1).1 = .ok "GT" :=
  ⟨rfl, rfl⟩

/-- C3 as amended: when a `Coordinate` object is passed, assembly is done on
the forward strand internally (the working copy's strand is forced to `+1`;
the call behaves as if the coordinate had strand `+1`) and the result is
reverse-complemented exactly when the passed coordinate's strand was `-1`;
when the interval is requested through keyword arguments the `strand`
argument is ignored and no reverse-complement is applied (see the
counterexample). -/
theorem get_sequence_rc_iff_coord_strand (env : Env) (s : Store) (r : Nat)
    (n : String) (a b st : Int) (h : r < s.length) :
    (get_sequence env s (some r) n a b st).1 =
      (if (s.getD r default).strand = -1
       then Except.map rcStr
         ((get_sequence env (s.set r { s.getD r default with strand := 1 })
            (some r) n a b st).1)
       else (get_sequence env (s.set r { s.getD r default with strand := 1 })
            (some r) n a b st).1) := by
  have hlen : r < (s.set r { s.getD r default with strand := 1 }).length := by
    rwa [List.length_set]
  have hc' : (s.set r { s.getD r default with strand := 1 }).getD r default
      = { s.getD r default with strand := 1 } := getD_set_self _ _ _ h
  rw [get_sequence_fst env s (some r) n a b st (s.getD r default) rfl,
      get_sequence_fst env (s.set r { s.getD r default with strand := 1 })
        (some r) n a b st { s.getD r default with strand := 1 } hc']
  simp only [List.length_set]
  have htr := tried_fst_congr env (s ++ [s.getD r default])
    ((s.set r { s.getD r default with strand := 1 })
      ++ [{ s.getD r default with strand := 1 }]) s.length s.length
    (by
      rw [getD_append_length]
      have h2 := getD_append_length (s.set r { s.getD r default with strand := 1 })
        { s.getD r default with strand := 1 }
      rw [List.length_set] at h2
      rw [h2])
  cases ht : (match (_get_sequence_from_direct_assembly env
      (s ++ [s.getD r default]) s.length).1 with
    | .error .noItem =>
      _get_sequence_from_lower_assembly env
        (_get_sequence_from_direct_assembly env (s ++ [s.getD r default]) s.length).2
        s.length
    | _ => _get_sequence_from_direct_assembly env (s ++ [s.getD r default]) s.length).1
    with
  | error e =>
    rw [ht] at htr
    rw [← htr]
    by_cases hstr : (s.getD r default).strand = -1 <;> simp [hstr, Except.map]
  | ok sq =>
    rw [ht] at htr
    rw [← htr]
    simp only [Except.map, eq_false (show ¬((1 : Int) = -1) by decide), if_false]
    by_cases hstr : (s.getD r default).strand = -1
    · rw [if_pos hstr, if_pos hstr]
    · rw [if_neg hstr, if_neg hstr]

/-- Witness for the amended C3 theorem: a reverse-strand coordinate in a
one-object store. -/
theorem get_sequence_rc_iff_coord_strand_witness :
    (0 < ([{ coord_name := "x", start := 0, stop := 2, strand := -1 }] : Store).length) ∧
    (get_sequence
        { systems := [⟨"chromosome", 1, false⟩, ⟨"contig", 2, true⟩]
        , conv := fun c _ => [(c, c)], dna := fun _ => "AC" }
        [{ coord_name := "x", start := 0, stop := 2, strand := -1 }]
        (some 0) "" 0 0 0).1 =
      (if (([{ coord_name := "x", start := 0, stop := 2, strand := -1 }] : Store).getD
            0 default).strand = -1
       then Except.map rcStr
         ((get_sequence
            { systems := [⟨"chromosome", 1, false⟩, ⟨"contig", 2, true⟩]
            , conv := fun c _ => [(c, c)], dna := fun _ => "AC" }
            (([{ coord_name := "x", start := 0, stop := 2, strand := -1 }] : Store).set 0
              { ([{ coord_name := "x", start := 0, stop := 2, strand := -1 }] : Store).getD
                  0 default with strand := 1 })
            (some 0) "" 0 0 0).1)
       else ((get_sequence
            { systems := [⟨"chromosome", 1, false⟩, ⟨"contig", 2, true⟩]
            , conv := fun c _ => [(c, c)], dna := fun _ => "AC" }
            (([{ coord_name := "x", start := 0, stop := 2, strand := -1 }] : Store).set 0
              { ([{ coord_name := "x", start := 0, stop := 2, strand := -1 }] : Store).getD
                  0 default with strand := 1 })
            (some 0) "" 0 0 0).1)) :=
  ⟨by decide,
    get_sequence_rc_iff_coord_strand
      { systems := [⟨"chromosome", 1, false⟩, ⟨"contig", 2, true⟩]
      , conv := fun c _ => [(c, c)], dna := fun _ => "AC" }
      [{ coord_name := "x", start := 0, stop := 2, strand := -1 }] 0 "" 0 0 0
      (by decide)⟩

theorem set_append_right (t v : List Coordinate) (i : Nat) (x : Coordinate)
    (h : t.length ≤ i) : (t ++ v).set i x = t ++ v.set (i - t.length) x := by
  induction t generalizing i with
  | nil => simp
  | cons hd tl ih =>
    cases i with
    | zero => simp at h
    | succ k =>
      have h2 : tl.length ≤ k := by simpa using h
      show hd :: (tl ++ v).set k x = hd :: (tl ++ v.set (k + 1 - (tl.length + 1)) x)
      rw [ih k h2, Nat.succ_sub_succ]

theorem prefix_set_ge (t u : List Coordinate) (i : Nat) (x : Coordinate)
    (hp : t <+: u) (hi : t.length ≤ i) : t <+: u.set i x := by
  obtain ⟨v, rfl⟩ := hp
  rw [set_append_right t v i x hi]
  exact ⟨v.set (i - t.length) x, rfl⟩

theorem lowerLoop_extends_store (env : Env) (l : List (Coordinate × Coordinate)) :
    ∀ (s t : Store), t <+: s → t <+: (lowerLoop env l s).2 := by
  induction l with
  | nil => intro s t h; exact h
  | cons hd rest ih =>
    intro s t h
    obtain ⟨q_loc, t_loc⟩ := hd
    have h1 : t <+: s ++ [t_loc] := h.trans (List.prefix_append s [t_loc])
    have h2 : t <+: (_get_sequence_from_direct_assembly env (s ++ [t_loc]) s.length).2 := by
      rw [direct_assembly_snd]
      exact prefix_set_ge t (s ++ [t_loc]) s.length _ h1 h.length_le
    cases hres : (_get_sequence_from_direct_assembly env (s ++ [t_loc]) s.length).1 with
    | error e => simp only [lowerLoop, hres]; exact h2
    | ok temp0 =>
      have h3 := ih _ t h2
      cases hr : (lowerLoop env rest
          (_get_sequence_from_direct_assembly env (s ++ [t_loc]) s.length).2).1 with
      | error e2 => simp only [lowerLoop, hres, hr]; exact h3
      | ok p => simp only [lowerLoop, hres, hr]; exact h3

theorem lower_assembly_extends_store (env : Env) (s t : Store) (r : Nat)
    (h : t <+: s) : t <+: (_get_sequence_from_lower_assembly env s r).2 := by
  simp only [_get_sequence_from_lower_assembly]
  cases get_lower_coord_conversion env (s.getD r default) with
  | error e => exact h
  | ok aopt =>
    simp only []
    split
    · exact h
    · have h3 := lowerLoop_extends_store env (aopt.getD []) s t h
      cases hl : (lowerLoop env (aopt.getD []) s).1 with
      | error e2 => simp only [hl]; exact h3
      | ok p => simp only [hl]; exact h3

theorem get_sequence_extends_store (env : Env) (s : Store) (coordRef : Option Nat)
    (n : String) (a b st : Int) :
    s <+: (get_sequence env s coordRef n a b st).2 := by
  simp only [get_sequence]
  have h1 : s <+: s ++ [match coordRef with
      | none => _make_coord n a b 1
      | some r0 => s.getD r0 default] := List.prefix_append s _
  have h2 : s <+: (_get_sequence_from_direct_assembly env
      (s ++ [match coordRef with
        | none => _make_coord n a b 1
        | some r0 => s.getD r0 default]) s.length).2 := by
    rw [direct_assembly_snd]
    exact prefix_set_ge s _ s.length _ h1 (le_refl _)
  cases hres : (_get_sequence_from_direct_assembly env
      (s ++ [match coordRef with
        | none => _make_coord n a b 1
        | some r0 => s.getD r0 default]) s.length).1 with
  | error e =>
    cases e with
    | noItem =>
      simp only [hres]
      cases hl : (_get_sequence_from_lower_assembly env
          (_get_sequence_from_direct_assembly env
            (s ++ [match coordRef with
              | none => _make_coord n a b 1
              | some r0 => s.getD r0 default]) s.length).2 s.length).1 with
      | error e2 =>
        simp only [hl]
        exact lower_assembly_extends_store env _ s s.length h2
      | ok sq =>
        simp only [hl]
        exact lower_assembly_extends_store env _ s s.length h2
    | mismatchedCounts => simp only [hres]; exact h2
    | inconsistentAssembly => simp only [hres]; exact h2
    | endBeforeFragEnd => simp only [hres]; exact h2
    | unboundFragEnd => simp only [hres]; exact h2
    | qLocStrandNot1 => simp only [hres]; exact h2
    | keyError => simp only [hres]; exact h2
  | ok sq => simp only [hres]; exact h2

theorem prefix_getD (t u : Store) (i : Nat) (hp : t <+: u)
    (hi : i < t.length) : u.getD i default = t.getD i default := by
  obtain ⟨v, rfl⟩ := hp
  induction t generalizing i with
  | nil => simp at hi
  | cons hd tl ih =>
    cases i with
    | zero => rfl
    | succ k => exact ih k (by simpa using hi)

/-- C10: `get_sequence` never mutates the caller-supplied coordinate object —
the passed coordinate is copied into a fresh store cell before any processing,
the in-place strand forcing hits only the copy, and the saved requested strand
is read from the copy before the forcing (the reverse-complement behaviour of
the copy path is in the C3 theorem).  The store cell of the caller's
coordinate is unchanged by the whole call. -/
theorem get_sequence_preserves_caller_coordinate (env : Env) (s : Store)
    (r0 : Nat) (coordRef : Option Nat) (n : String) (a b st : Int)
    (h : r0 < s.length) :
    ((get_sequence env s coordRef n a b st).2).getD r0 default
      = s.getD r0 default :=
  prefix_getD s _ r0 (get_sequence_extends_store env s coordRef n a b st) h

/-- Witness for C10: a store holding one reverse-strand coordinate; after the
call the stored object still has strand `-1`. -/
theorem get_sequence_preserves_caller_coordinate_witness :
    (0 < ([{ coord_name := "x", start := 0, stop := 2, strand := -1 }] : Store).length) ∧
    (((get_sequence
        { systems := [⟨"chromosome", 1, false⟩, ⟨"contig", 2, true⟩]
        , conv := fun c _ => [(c, c)], dna := fun _ => "AC" }
        [{ coord_name := "x", start := 0, stop := 2, strand := -1 }]
        (some 0) "" 0 0 0).2).getD 0 default
      = ([{ coord_name := "x", start := 0, stop := 2, strand := -1 }] : Store).getD
          0 default) :=
  ⟨by decide,
    get_sequence_preserves_caller_coordinate
      { systems := [⟨"chromosome", 1, false⟩, ⟨"contig", 2, true⟩]
      , conv := fun c _ => [(c, c)], dna := fun _ => "AC" }
      [{ coord_name := "x", start := 0, stop := 2, strand := -1 }]
      0 (some 0) "" 0 0 0 (by decide)⟩

theorem collect_seqs_drop (env : ComparaEnv) (rl : Coordinate) (cs ce : Int)
    (dorc : Bool) (ms1 ms2 : List SynMember) (m : SynMember)
    (hm : member_seq_and_loc env rl cs ce m = none) :
    collect_seqs env rl cs ce dorc (ms1 ++ m :: ms2)
      = collect_seqs env rl cs ce dorc (ms1 ++ ms2) := by
  induction ms1 with
  | nil => simp [collect_seqs, hm]
  | cons hd tl ih =>
    simp only [List.cons_append, collect_seqs, List.append_eq, ih]

theorem collect_seqs_rc_labels (env : ComparaEnv) (rl : Coordinate)
    (cs ce : Int) (ms : List SynMember) :
    collect_seqs env rl cs ce true ms
      = (collect_seqs env rl cs ce false ms).map
          (fun p => ({ p.1 with strand := p.1.strand * -1 }, p.2)) := by
  induction ms with
  | nil => rfl
  | cons hd tl ih =>
    simp only [collect_seqs]
    cases hx : member_seq_and_loc env rl cs ce hd with
    | none => exact ih
    | some p => simp [ih]

/-- C6: (1) the reference member's operator string is sliced in
sequence-offset space (`by_align = False`), over a window that starts at the
reference coordinate's offset within the block — reflected to
`block length - relative_end` when the block location is not on the forward
strand — and always has width `len(ref_location)`; (2) the `(ops, seq-bounds)`
pair of every other member is exactly the alignment-column-space slice of its
own operator string; (3) `get_alignment` slices the other members at exactly
the column bounds `(CigarStart, CigarEnd)` produced by the reference slice. -/
theorem syntenic_slice_spaces_and_bounds :
    (∀ (refRec : MemberRecord) (ref_location : Coordinate),
      _make_ref_map refRec ref_location
        = (slice_cigar refRec.cigar_line (spec_ref_slice_start refRec ref_location)
            (spec_ref_slice_start refRec ref_location + coordLen ref_location)
            false).map
            (fun p => (p.1, p.2, { ref_location with strand :=
              (make_location refRec.name refRec.dnafrag_start refRec.dnafrag_end
                refRec.dnafrag_strand).strand }))) ∧
    (∀ (memRec : MemberRecord) (cigarStart cigarEnd : Int),
      (_make_map_from_ref memRec cigarStart cigarEnd).map
          (fun res => (res.1, res.2.1))
        = slice_cigar memRec.cigar_line cigarStart cigarEnd true) ∧
    (∀ (env : ComparaEnv) (blk : SyntenicBlock) (omitR : Bool)
        (rm : List CigarOp) (al : Int × Int) (rloc : Coordinate),
      _make_ref_map blk.ref_rec blk.ref_location = some (rm, al, rloc) →
      get_alignment env blk omitR =
        some (
          (fun aln => if omitR then filterRedundant aln else aln)
            ((fun seqs => if decide (blk.ref_location.strand ≠ rloc.strand)
                then seqs.map (fun p => (p.1, rcStr p.2)) else seqs)
              (collect_seqs env blk.ref_location al.1 al.2
                (decide (blk.ref_location.strand ≠ rloc.strand))
                (⟨blk.ref_rec, true⟩ ::
                  blk.other_recs.map (fun m => ⟨m, false⟩)))))) := by
  refine ⟨?_, ?_, ?_⟩
  · intro refRec ref_location
    simp only [_make_ref_map, spec_ref_slice_start]
    by_cases hstr : (make_location refRec.name refRec.dnafrag_start
        refRec.dnafrag_end refRec.dnafrag_strand).strand ≠ 1
    · simp only [if_pos hstr]
      cases slice_cigar refRec.cigar_line _ _ false <;> rfl
    · simp only [if_neg hstr]
      cases slice_cigar refRec.cigar_line _ _ false <;> rfl
  · intro memRec cigarStart cigarEnd
    simp only [_make_map_from_ref]
    cases slice_cigar memRec.cigar_line cigarStart cigarEnd true with
    | none => rfl
    | some p => rfl
  · intro env blk omitR rm al rloc h
    simp only [get_alignment, h]

/-- Witness for C6 (conjunct 3 carries hypotheses): the reference slice of the
concrete 2-member block yields column bounds `(0, 4)`, and `get_alignment`
equals the member collection over exactly those bounds. -/
theorem syntenic_slice_spaces_and_bounds_witness :
    (_make_ref_map blkC9.ref_rec blkC9.ref_location
      = some ([⟨.M, 2⟩, ⟨.D, 1⟩, ⟨.M, 1⟩], ((0 : Int), (4 : Int)),
          { coord_name := "chrA", start := 0, stop := 3, strand := 1 })) ∧
    (get_alignment envC9 blkC9 false
      = some [({ coord_name := "chrA", start := 0, stop := 3, strand := 1 }, "AC-G"),
              ({ coord_name := "chrB", start := 10, stop := 13, strand := 1 }, "AT-A")]) :=
  ⟨rfl,
    syntenic_slice_spaces_and_bounds.2.2 envC9 blkC9 false
      [⟨.M, 2⟩, ⟨.D, 1⟩, ⟨.M, 1⟩] ((0 : Int), (4 : Int))
      { coord_name := "chrA", start := 0, stop := 3, strand := 1 } rfl⟩

/-- C7: a member whose sequence resolution fails (`NoMapping`, or a caught
slice `IndexError`) is dropped from the block — the alignment equals the one
of the block without that member — while the block is still produced; in the
concrete 3-member block `blkC7` the member `chrF` fails and the result holds
exactly the other 2 members, of identical gapped length. -/
theorem failed_member_dropped_block_survives :
    (∀ (env : ComparaEnv) (blk : SyntenicBlock) (omitR : Bool)
        (m : MemberRecord) (l1 l2 : List MemberRecord)
        (rm : List CigarOp) (al : Int × Int) (rloc : Coordinate),
      _make_ref_map blk.ref_rec blk.ref_location = some (rm, al, rloc) →
      blk.other_recs = l1 ++ m :: l2 →
      member_seq_and_loc env blk.ref_location al.1 al.2 ⟨m, false⟩ = none →
      get_alignment env blk omitR
        = get_alignment env { blk with other_recs := l1 ++ l2 } omitR) ∧
    (get_alignment envC7 blkC7 false
      = some [({ coord_name := "chrR", start := 0, stop := 4, strand := 1 }, "ACTG"),
              ({ coord_name := "chr7", start := 10, stop := 13, strand := 1 }, "AC-G")]) ∧
    ("ACTG".length = "AC-G".length) := by
  refine ⟨?_, rfl, rfl⟩
  intro env blk omitR m l1 l2 rm al rloc h hrecs hm
  simp only [get_alignment, h, hrecs, List.map_append, List.map_cons]
  have hc : collect_seqs env blk.ref_location al.1 al.2
        (decide (blk.ref_location.strand ≠ rloc.strand))
        (⟨blk.ref_rec, true⟩ ::
          (l1.map (fun x => (⟨x, false⟩ : SynMember))
            ++ ⟨m, false⟩ :: l2.map (fun x => (⟨x, false⟩ : SynMember))))
      = collect_seqs env blk.ref_location al.1 al.2
        (decide (blk.ref_location.strand ≠ rloc.strand))
        (⟨blk.ref_rec, true⟩ ::
          (l1.map (fun x => (⟨x, false⟩ : SynMember))
            ++ l2.map (fun x => (⟨x, false⟩ : SynMember)))) :=
    collect_seqs_drop env blk.ref_location al.1 al.2
      (decide (blk.ref_location.strand ≠ rloc.strand))
      (⟨blk.ref_rec, true⟩ :: l1.map (fun x => (⟨x, false⟩ : SynMember)))
      (l2.map (fun x => (⟨x, false⟩ : SynMember))) ⟨m, false⟩ hm
  rw [hc]

/-- Witness for C7's general drop conjunct: dropping the failing `chrF`
member of `blkC7` leaves the alignment unchanged. -/
theorem failed_member_dropped_block_survives_witness :
    (member_seq_and_loc envC7 blkC7.ref_location 0 4
        ⟨{ name := "chrF", dnafrag_start := 21, dnafrag_end := 24,
           dnafrag_strand := 1, cigar_line := "4M" }, false⟩ = none) ∧
    (get_alignment envC7 blkC7 false
      = get_alignment envC7
          { blkC7 with other_recs :=
              [] ++ [{ name := "chr7", dnafrag_start := 11, dnafrag_end := 13,
                       dnafrag_strand := 1, cigar_line := "2M1D1M" }] } false) :=
  ⟨rfl,
    failed_member_dropped_block_survives.1 envC7 blkC7 false
      { name := "chrF", dnafrag_start := 21, dnafrag_end := 24,
        dnafrag_strand := 1, cigar_line := "4M" }
      []
      [{ name := "chr7", dnafrag_start := 11, dnafrag_end := 13,
         dnafrag_strand := 1, cigar_line := "2M1D1M" }]
      [⟨.M, 4⟩] ((0 : Int), (4 : Int))
      { coord_name := "chrR", start := 0, stop := 4, strand := 1 }
      rfl rfl rfl⟩

/-- C8: when the reference member's resolved strand (the block strand carried
by the reference region location) disagrees with the originally requested
strand, the whole alignment is reverse-complemented and every retained
member's displayed location carries the flipped strand; when they agree,
neither the sequences nor the labels are altered. -/
theorem alignment_orientation_normalization (env : ComparaEnv)
    (blk : SyntenicBlock) (rm : List CigarOp) (al : Int × Int)
    (rloc : Coordinate)
    (h : _make_ref_map blk.ref_rec blk.ref_location = some (rm, al, rloc)) :
    (blk.ref_location.strand ≠ rloc.strand →
      get_alignment env blk false =
        some (((collect_seqs env blk.ref_location al.1 al.2 false
            (⟨blk.ref_rec, true⟩ :: blk.other_recs.map (fun x => ⟨x, false⟩))).map
          (fun p => ({ p.1 with strand := p.1.strand * -1 }, p.2))).map
          (fun p => (p.1, rcStr p.2)))) ∧
    (blk.ref_location.strand = rloc.strand →
      get_alignment env blk false =
        some (collect_seqs env blk.ref_location al.1 al.2 false
          (⟨blk.ref_rec, true⟩ :: blk.other_recs.map (fun x => ⟨x, false⟩)))) := by
  constructor
  · intro hne
    have hd : decide (blk.ref_location.strand ≠ rloc.strand) = true :=
      decide_eq_true hne
    simp only [get_alignment, h, hd, if_true, collect_seqs_rc_labels,
      Bool.false_eq_true, if_false]
  · intro heq
    have hd : decide (blk.ref_location.strand ≠ rloc.strand) = false := by
      simp [heq]
    simp only [get_alignment, h, hd, Bool.false_eq_true, if_false]

/-- Witness for C8: a reverse-strand block (`blkC8`, whole-alignment
reverse-complement with flipped labels) and a forward block (`blkC9`,
unaltered). -/
theorem alignment_orientation_normalization_witness :
    (({ coord_name := "chrA", start := 0, stop := 3, strand := 1 } :
        Coordinate).strand ≠ (-1 : Int)) ∧
    (get_alignment envC9 blkC8 false
      = some [({ coord_name := "chrA", start := 0, stop := 3, strand := 1 }, "CGT")]) ∧
    (get_alignment envC9 blkC9 false
      = some [({ coord_name := "chrA", start := 0, stop := 3, strand := 1 }, "AC-G"),
              ({ coord_name := "chrB", start := 10, stop := 13, strand := 1 }, "AT-A")]) :=
  ⟨by decide,
    (alignment_orientation_normalization envC9 blkC8 [⟨.M, 3⟩] ((0 : Int), (3 : Int))
      { coord_name := "chrA", start := 0, stop := 3, strand := -1 } rfl).1
      (by decide),
    (alignment_orientation_normalization envC9 blkC9
      [⟨.M, 2⟩, ⟨.D, 1⟩, ⟨.M, 1⟩] ((0 : Int), (4 : Int))
      { coord_name := "chrA", start := 0, stop := 3, strand := 1 } rfl).2 rfl⟩

/-- C9: with `omit_redundant` the returned alignment is exactly the
unfiltered alignment with its gap-only columns removed (in order); on the
concrete 2-member, 4-column block whose third column is gap-only in both
members, filtering yields the 3-column alignment, and without filtering all
4 columns are kept. -/
theorem redundant_column_filtering :
    (∀ (env : ComparaEnv) (blk : SyntenicBlock),
      get_alignment env blk true
        = Option.map filterRedundant (get_alignment env blk false)) ∧
    (get_alignment envC9 blkC9 false
      = some [({ coord_name := "chrA", start := 0, stop := 3, strand := 1 }, "AC-G"),
              ({ coord_name := "chrB", start := 10, stop := 13, strand := 1 }, "AT-A")]) ∧
    (get_alignment envC9 blkC9 true
      = some [({ coord_name := "chrA", start := 0, stop := 3, strand := 1 }, "ACG"),
              ({ coord_name := "chrB", start := 10, stop := 13, strand := 1 }, "ATA")]) := by
  refine ⟨?_, rfl, rfl⟩
  intro env blk
  cases h : _make_ref_map blk.ref_rec blk.ref_location with
  | none => simp [get_alignment, h]
  | some p =>
    obtain ⟨rm, al, rloc⟩ := p
    simp [get_alignment, h]
